import Mathlib

/-!
Verification of the mermgen source-structure indexer.

This file gives a shallow embedding of the indexer core of the mermgen
repository: the `ProjectData` model, the per-file merge algorithm
`mergeFileData`, and the directory traversal `ParseGoProject`
(file `parser/parser.go` of the original tree-sitter based parser).

Go maps are embedded as association lists with Go-map semantics
(`mapGet` returns the first binding, `mapSet` replaces in place or
appends); Go structs become Lean structures compared by value; the
dynamically typed `map[string]interface{}` fact records produced by
`extractInformation` become the `FileFacts` structure, where each
type-asserted field is an `Option` (a failed type assertion in Go
corresponds to `none`).
-/

namespace Mermgen

/-- Association-list map with Go-map lookup semantics: first binding wins. -/
def mapGet {α : Type} : List (String × α) → String → Option α
  | [], _ => none
  | (k, v) :: rest, q => if k = q then some v else mapGet rest q

/-- Association-list map update with Go-map assignment semantics:
replace the binding in place if the key is present, append otherwise. -/
def mapSet {α : Type} : List (String × α) → String → α → List (String × α)
  | [], k, v => [(k, v)]
  | (k', v') :: rest, k, v =>
      if k' = k then (k, v) :: rest else (k', v') :: mapSet rest k v

/-- The keys of an association-list map. -/
def mapKeys {α : Type} (m : List (String × α)) : List String :=
  m.map Prod.fst

/-- Structure `ParameterData` of parser.go: a function parameter (name and type). -/
structure ParameterData where
  Name : String
  Ty : String
deriving DecidableEq, Repr

/-- Structure `FunctionData` of parser.go: a Go function or method. -/
structure FunctionData where
  Name : String
  Receiver : String
  Parameters : List ParameterData
  Returns : List String
deriving DecidableEq, Repr

/-- Structure `TypeData` of parser.go: a Go type (struct, interface, etc.). -/
structure TypeData where
  Name : String
  Kind : String
  Fields : List (String × String)
  Methods : List (String × FunctionData)
  Implements : List String
deriving DecidableEq, Repr

/-- Structure `PackageData` of parser.go: a parsed Go package. -/
structure PackageData where
  Name : String
  Types : List (String × TypeData)
  Functions : List (String × FunctionData)
deriving DecidableEq, Repr

/-- Structure `ProjectData` of parser.go: the parsed structure of a Go project. -/
structure ProjectData where
  Packages : List (String × PackageData)
  Imports : List (String × List String)
  Relations : List (String × List String)
deriving DecidableEq, Repr

/-- The fresh `ProjectData` built at the top of `ParseGoProject`
(all three maps empty). -/
def emptyProject : ProjectData :=
  { Packages := [], Imports := [], Relations := [] }

/-- One entry of the `types` list inside the per-file fact record:
`typeInfo["name"]` and `typeInfo["kind"]`, each `none` when the Go type
assertion on the `interface{}` value would fail (key absent). -/
structure TypeInfo where
  name : Option String
  kind : Option String
deriving DecidableEq, Repr

/-- One entry of the `functions` list inside the per-file fact record:
`funcInfo["name"]` and `funcInfo["receiver"]`, each `none` when the Go
type assertion would fail (key absent). -/
structure FuncInfo where
  name : Option String
  receiver : Option String
deriving DecidableEq, Repr

/-- The `map[string]interface{}` produced per file by `extractInformation`
and consumed by `mergeFileData`; each field is `none` exactly when the
corresponding type assertion in `mergeFileData` would fail. -/
structure FileFacts where
  package : Option String
  imports : Option (List String)
  types : Option (List TypeInfo)
  functions : Option (List FuncInfo)
deriving DecidableEq, Repr

/-- The `if _, exists := projectData.Packages[packageName]; !exists` block
of `mergeFileData`: create the package if it doesn't exist. -/
def ensurePackage (pd : ProjectData) (packageName : String) : ProjectData :=
  if (mapGet pd.Packages packageName).isSome then pd
  else { pd with
          Packages := mapSet pd.Packages packageName
            { Name := packageName, Types := [], Functions := [] } }

/-- The `// Add imports` block of `mergeFileData`: append the file's
imported paths to `projectData.Imports[packageName]` (a lookup of an
absent key in a Go `map[string][]string` yields the empty slice). -/
def addImports (pd : ProjectData) (packageName : String) :
    Option (List String) → ProjectData
  | none => pd
  | some imports =>
      { pd with
          Imports := mapSet pd.Imports packageName
            ((mapGet pd.Imports packageName).getD [] ++ imports) }

/-- The body of the `// Add types` loop of `mergeFileData` for one
`typeInfo`: skip if the name assertion fails, else create-if-absent the
`TypeData` (the kind assertion defaults to `""` via `kind, _ := ...`).
The Go code dereferences `projectData.Packages[packageName]` without a
check; that pointer is always non-nil because the package was created at
the top of `mergeFileData`, and the unreachable nil case is embedded as
a no-op. -/
def addType (packageName : String) (pd : ProjectData) (typeInfo : TypeInfo) :
    ProjectData :=
  match typeInfo.name with
  | none => pd
  | some typeName =>
    let kind := typeInfo.kind.getD ""
    match mapGet pd.Packages packageName with
    | none => pd
    | some pkg =>
      if (mapGet pkg.Types typeName).isSome then pd
      else { pd with
              Packages := mapSet pd.Packages packageName
                { pkg with
                    Types := mapSet pkg.Types typeName
                      { Name := typeName, Kind := kind, Fields := [],
                        Methods := [], Implements := [] } } }

/-- The body of the `// Add functions` loop of `mergeFileData` for one
`funcInfo`: skip if the name assertion fails; build the `FunctionData`;
if a receiver is present, set it and store the function in the receiver
type's `Methods` map when that type exists (map assignment, replacing
any previous binding), dropping the fact otherwise; if no receiver is
present, store under the package's `Functions` map (map assignment).
As in `addType`, the always-non-nil package pointer's nil case is a
no-op. -/
def addFunction (packageName : String) (pd : ProjectData)
    (funcInfo : FuncInfo) : ProjectData :=
  match funcInfo.name with
  | none => pd
  | some funcName =>
    let function : FunctionData :=
      { Name := funcName, Receiver := "", Parameters := [], Returns := [] }
    match funcInfo.receiver with
    | some receiver =>
      let function := { function with Receiver := receiver }
      match mapGet pd.Packages packageName with
      | none => pd
      | some pkg =>
        match mapGet pkg.Types receiver with
        | some typeData =>
            { pd with
                Packages := mapSet pd.Packages packageName
                  { pkg with
                      Types := mapSet pkg.Types receiver
                        { typeData with
                            Methods := mapSet typeData.Methods funcName
                              function } } }
        | none => pd
    | none =>
      match mapGet pd.Packages packageName with
      | none => pd
      | some pkg =>
          { pd with
              Packages := mapSet pd.Packages packageName
                { pkg with
                    Functions := mapSet pkg.Functions funcName function } }

set_option linter.unusedVariables false in
/-- Function `mergeFileData` of parser.go: merge the data from a single file into
the project data. The `filePath` parameter is unused by the Go body and
kept for fidelity. A failed `fileData["package"].(string)` assertion
returns immediately; a failed assertion on `imports`, `types` or
`functions` skips only that block. -/
def mergeFileData (pd : ProjectData) (fileData : FileFacts)
    (filePath : String) : ProjectData :=
  match fileData.package with
  | none => pd
  | some packageName =>
    let pd1 := ensurePackage pd packageName
    let pd2 := addImports pd1 packageName fileData.imports
    let pd3 := (fileData.types.getD []).foldl (addType packageName) pd2
    (fileData.functions.getD []).foldl (addFunction packageName) pd3

/-- Merging a list of per-file facts in order, as the sequential
`filepath.Walk` callback does for the files it successfully parses. -/
def mergeList (pd : ProjectData) : List (FileFacts × String) → ProjectData
  | [] => pd
  | (f, path) :: rest => mergeList (mergeFileData pd f path) rest

/-- Errors produced by `ParseGoProject`'s traversal: the error handed to
the walk callback by `filepath.Walk` for an inaccessible path (returned
unchanged), the wrapped `error parsing file %s: %w` built in the
callback, and the outer `error walking project directory: %w` wrap. -/
inductive GoError where
  | access (msg : String)
  | parseFile (path : String) (cause : String)
  | walkDir (inner : GoError)
deriving DecidableEq, Repr

instance {α β : Type} [DecidableEq α] [DecidableEq β] :
    DecidableEq (Except α β) := fun
  | .error a, .error b =>
      if h : a = b then .isTrue (by rw [h])
      else .isFalse fun hc => h (Except.error.injEq .. ▸ hc)
  | .error _, .ok _ => .isFalse fun hc => Except.noConfusion hc
  | .ok _, .error _ => .isFalse fun hc => Except.noConfusion hc
  | .ok a, .ok b =>
      if h : a = b then .isTrue (by rw [h])
      else .isFalse fun hc => h (Except.ok.injEq .. ▸ hc)

/-- One entry handed to the `filepath.Walk` callback: the incoming
`err` argument (non-nil for an inaccessible path), the path, whether the
entry is a directory, and the outcome `parseGoFile` would produce for it
(the syntax extractor is an external collaborator; its per-file outcome
is part of the traversal being described). -/
structure WalkEntry where
  accessErr : Option String
  path : String
  isDir : Bool
  parse : Except String FileFacts
deriving DecidableEq, Repr

/-- Boolean prefix test on character lists. -/
def isPrefixList : List Char → List Char → Bool
  | [], _ => true
  | _ :: _, [] => false
  | a :: as, b :: bs => a = b && isPrefixList as bs

/-- Boolean suffix test on strings, by character list. -/
def strEndsWith (s suffix : String) : Bool :=
  isPrefixList suffix.data.reverse s.data.reverse

/-- The body of the `filepath.Walk` callback in `ParseGoProject`:
propagate an incoming access error; skip directories and files whose
extension is not `.go` — Go's `filepath.Ext` returns the suffix starting
at the final dot of the last path element, so `filepath.Ext path = ".go"`
holds exactly when the path ends with `".go"`, embedded as
`strEndsWith path ".go"`; on a `parseGoFile` error return the wrapped
error, which makes `filepath.Walk` abort; otherwise merge the file's
facts and continue. -/
def walkStep (pd : ProjectData) (e : WalkEntry) : Except GoError ProjectData :=
  match e.accessErr with
  | some msg => .error (.access msg)
  | none =>
    if e.isDir || !(strEndsWith e.path ".go") then .ok pd
    else
      match e.parse with
      | .error cause => .error (.parseFile e.path cause)
      | .ok fileData => .ok (mergeFileData pd fileData e.path)

/-- Walk loop: `filepath.Walk` over the entries it would visit, in order: stop at
the first callback error, thread the project data otherwise. -/
def walkAll (pd : ProjectData) : List WalkEntry → Except GoError ProjectData
  | [] => .ok pd
  | e :: rest =>
    match walkStep pd e with
    | .error err => .error err
    | .ok pd' => walkAll pd' rest

/-- Function `ParseGoProject` of parser.go, over the traversal's entry list:
start from a fresh `ProjectData`, walk the tree, and on a walk error
return `nil` and the `error walking project directory: %w` wrap. -/
def ParseGoProject (entries : List WalkEntry) : Except GoError ProjectData :=
  match walkAll emptyProject entries with
  | .error err => .error (.walkDir err)
  | .ok pd => .ok pd

/-- Observation helpers: lookup of a type or function through the model. -/
def obsType (pd : ProjectData) (p t : String) : Option TypeData :=
  (mapGet pd.Packages p).bind fun pkg => mapGet pkg.Types t

/-- Lookup of a free function through the model. -/
def obsFun (pd : ProjectData) (p f : String) : Option FunctionData :=
  (mapGet pd.Packages p).bind fun pkg => mapGet pkg.Functions f

/-- Lookup of a method of a type through the model. -/
def obsMethod (pd : ProjectData) (p t m : String) : Option FunctionData :=
  (obsType pd p t).bind fun td => mapGet td.Methods m

/-! ### Association-map lemmas -/

@[simp]
theorem mapGet_nil {α : Type} (q : String) :
    mapGet ([] : List (String × α)) q = none := rfl

theorem mapGet_set_self {α : Type} (m : List (String × α)) (k : String)
    (v : α) : mapGet (mapSet m k v) k = some v := by
  induction m with
  | nil => simp [mapSet, mapGet]
  | cons hd tl ih =>
    obtain ⟨k', v'⟩ := hd
    by_cases h : k' = k
    · simp [mapSet, h, mapGet]
    · simp [mapSet, h, mapGet, ih]

theorem mapGet_set_ne {α : Type} (m : List (String × α)) (k q : String)
    (v : α) (h : q ≠ k) : mapGet (mapSet m k v) q = mapGet m q := by
  induction m with
  | nil => simp [mapSet, mapGet, Ne.symm h]
  | cons hd tl ih =>
    obtain ⟨k', v'⟩ := hd
    by_cases hk : k' = k
    · subst hk
      simp [mapSet, mapGet, Ne.symm h]
    · simp [mapSet, hk, mapGet, ih]

theorem mem_mapKeys_iff {α : Type} (m : List (String × α)) (k : String) :
    k ∈ mapKeys m ↔ (mapGet m k).isSome := by
  induction m with
  | nil => simp [mapKeys, mapGet]
  | cons hd tl ih =>
    obtain ⟨k', v'⟩ := hd
    by_cases h : k' = k
    · simp [mapKeys, mapGet, h]
    · simpa [mapKeys, mapGet, h, Ne.symm h] using ih

theorem mapKeys_set_present {α : Type} (m : List (String × α)) (k : String)
    (v : α) (h : (mapGet m k).isSome) :
    mapKeys (mapSet m k v) = mapKeys m := by
  induction m with
  | nil => simp [mapGet] at h
  | cons hd tl ih =>
    obtain ⟨k', v'⟩ := hd
    by_cases hk : k' = k
    · simp [mapSet, hk, mapKeys]
    · simp only [mapGet, if_neg hk] at h
      have ih' := ih h
      simp only [mapKeys] at ih'
      simp [mapSet, hk, mapKeys, ih']

theorem mapKeys_set_absent {α : Type} (m : List (String × α)) (k : String)
    (v : α) (h : mapGet m k = none) :
    mapKeys (mapSet m k v) = mapKeys m ++ [k] := by
  induction m with
  | nil => simp [mapSet, mapKeys]
  | cons hd tl ih =>
    obtain ⟨k', v'⟩ := hd
    by_cases hk : k' = k
    · simp [mapGet, hk] at h
    · simp only [mapGet, if_neg hk] at h
      have ih' := ih h
      simp only [mapKeys] at ih'
      simp [mapSet, hk, mapKeys, ih']

theorem nodup_mapKeys_set {α : Type} (m : List (String × α)) (k : String)
    (v : α) (h : (mapKeys m).Nodup) : (mapKeys (mapSet m k v)).Nodup := by
  rcases ho : mapGet m k with _ | w
  · rw [mapKeys_set_absent m k v ho]
    refine List.Nodup.append h (List.nodup_singleton k) ?_
    intro a ha hb
    rw [List.mem_singleton] at hb
    subst hb
    rw [mem_mapKeys_iff, ho] at ha
    simp at ha
  · rw [mapKeys_set_present m k v (by simp [ho])]
    exact h

theorem mapGet_set_cases {α : Type} (m : List (String × α)) (k q : String)
    (v w : α) (h : mapGet (mapSet m k v) q = some w) :
    (q = k ∧ w = v) ∨ (q ≠ k ∧ mapGet m q = some w) := by
  by_cases hq : q = k
  · subst hq
    rw [mapGet_set_self] at h
    exact Or.inl ⟨rfl, (Option.some.injEq .. ▸ h).symm⟩
  · rw [mapGet_set_ne m k q v hq] at h
    exact Or.inr ⟨hq, h⟩

/-! ### Shape lemmas for the merge steps -/

theorem ensurePackage_of_present (pd : ProjectData) (p : String)
    (h : (mapGet pd.Packages p).isSome) : ensurePackage pd p = pd := by
  simp [ensurePackage, h]

theorem ensurePackage_of_absent (pd : ProjectData) (p : String)
    (h : mapGet pd.Packages p = none) :
    ensurePackage pd p =
      { pd with Packages := mapSet pd.Packages p ⟨p, [], []⟩ } := by
  simp [ensurePackage, h]

theorem ensurePackage_imports (pd : ProjectData) (p : String) :
    (ensurePackage pd p).Imports = pd.Imports := by
  unfold ensurePackage; split <;> rfl

theorem ensurePackage_relations (pd : ProjectData) (p : String) :
    (ensurePackage pd p).Relations = pd.Relations := by
  unfold ensurePackage; split <;> rfl

theorem addImports_packages (pd : ProjectData) (p : String)
    (io : Option (List String)) : (addImports pd p io).Packages = pd.Packages := by
  cases io <;> rfl

theorem addImports_relations (pd : ProjectData) (p : String)
    (io : Option (List String)) : (addImports pd p io).Relations = pd.Relations := by
  cases io <;> rfl

/-- Shape of `addType`: it either leaves the project unchanged or registers one fresh
canonical `TypeData` in the (present) target package. -/
theorem addType_shape (p : String) (pd : ProjectData) (ti : TypeInfo) :
    addType p pd ti = pd ∨
    ∃ pkg t, mapGet pd.Packages p = some pkg ∧ ti.name = some t ∧
      mapGet pkg.Types t = none ∧
      addType p pd ti =
        { pd with
            Packages := mapSet pd.Packages p
              { pkg with
                  Types := mapSet pkg.Types t
                    ⟨t, ti.kind.getD "", [], [], []⟩ } } := by
  unfold addType
  rcases hn : ti.name with _ | t
  · exact Or.inl rfl
  · rcases hp : mapGet pd.Packages p with _ | pkg
    · exact Or.inl rfl
    · rcases ht : mapGet pkg.Types t with _ | td
      · exact Or.inr ⟨pkg, t, rfl, rfl, ht, by simp [ht]⟩
      · exact Or.inl (by simp [ht])

/-- Shape of `addFunction`: it either leaves the project unchanged, or registers a
canonical free function in the (present) target package, or replaces the
binding for its name in the (present) receiver type's methods map with a
canonical method. -/
theorem addFunction_shape (p : String) (pd : ProjectData) (fi : FuncInfo) :
    addFunction p pd fi = pd ∨
    (∃ pkg n, mapGet pd.Packages p = some pkg ∧ fi.name = some n ∧
      fi.receiver = none ∧
      addFunction p pd fi =
        { pd with
            Packages := mapSet pd.Packages p
              { pkg with
                  Functions := mapSet pkg.Functions n
                    ⟨n, "", [], []⟩ } }) ∨
    (∃ pkg n r td, mapGet pd.Packages p = some pkg ∧ fi.name = some n ∧
      fi.receiver = some r ∧ mapGet pkg.Types r = some td ∧
      addFunction p pd fi =
        { pd with
            Packages := mapSet pd.Packages p
              { pkg with
                  Types := mapSet pkg.Types r
                    { td with
                        Methods := mapSet td.Methods n
                          ⟨n, r, [], []⟩ } } }) := by
  unfold addFunction
  rcases hn : fi.name with _ | n
  · exact Or.inl rfl
  · rcases hr : fi.receiver with _ | r
    · rcases hp : mapGet pd.Packages p with _ | pkg
      · exact Or.inl rfl
      · exact Or.inr (Or.inl ⟨pkg, n, rfl, rfl, rfl, rfl⟩)
    · rcases hp : mapGet pd.Packages p with _ | pkg
      · exact Or.inl rfl
      · rcases ht : mapGet pkg.Types r with _ | td
        · exact Or.inl (by simp [ht])
        · exact Or.inr (Or.inr ⟨pkg, n, r, td, rfl, rfl, rfl, ht, by simp [ht]⟩)

theorem addType_imports (p : String) (pd : ProjectData) (ti : TypeInfo) :
    (addType p pd ti).Imports = pd.Imports := by
  rcases addType_shape p pd ti with h | ⟨pkg, t, _, _, _, h⟩ <;> rw [h]

theorem addType_relations (p : String) (pd : ProjectData) (ti : TypeInfo) :
    (addType p pd ti).Relations = pd.Relations := by
  rcases addType_shape p pd ti with h | ⟨pkg, t, _, _, _, h⟩ <;> rw [h]

theorem addFunction_imports (p : String) (pd : ProjectData) (fi : FuncInfo) :
    (addFunction p pd fi).Imports = pd.Imports := by
  rcases addFunction_shape p pd fi with h | ⟨pkg, n, _, _, _, h⟩ |
    ⟨pkg, n, r, td, _, _, _, _, h⟩ <;> rw [h]

theorem addFunction_relations (p : String) (pd : ProjectData) (fi : FuncInfo) :
    (addFunction p pd fi).Relations = pd.Relations := by
  rcases addFunction_shape p pd fi with h | ⟨pkg, n, _, _, _, h⟩ |
    ⟨pkg, n, r, td, _, _, _, _, h⟩ <;> rw [h]

theorem ensurePackage_packages_ne (pd : ProjectData) (p q : String)
    (h : q ≠ p) :
    mapGet (ensurePackage pd p).Packages q = mapGet pd.Packages q := by
  unfold ensurePackage
  split
  · rfl
  · exact mapGet_set_ne _ _ _ _ h

theorem addType_packages_ne (p : String) (pd : ProjectData) (ti : TypeInfo)
    (q : String) (h : q ≠ p) :
    mapGet (addType p pd ti).Packages q = mapGet pd.Packages q := by
  rcases addType_shape p pd ti with hs | ⟨pkg, t, _, _, _, hs⟩
  · rw [hs]
  · rw [hs]; exact mapGet_set_ne _ _ _ _ h

theorem addFunction_packages_ne (p : String) (pd : ProjectData)
    (fi : FuncInfo) (q : String) (h : q ≠ p) :
    mapGet (addFunction p pd fi).Packages q = mapGet pd.Packages q := by
  rcases addFunction_shape p pd fi with hs | ⟨pkg, n, _, _, _, hs⟩ |
    ⟨pkg, n, r, td, _, _, _, _, hs⟩ <;> rw [hs]
  · exact mapGet_set_ne _ _ _ _ h
  · exact mapGet_set_ne _ _ _ _ h

/-- Step `addType` never changes any package's functions map. -/
theorem addType_obsFun (p : String) (pd : ProjectData) (ti : TypeInfo)
    (q f : String) : obsFun (addType p pd ti) q f = obsFun pd q f := by
  rcases addType_shape p pd ti with hs | ⟨pkg, t, hp, _, _, hs⟩
  · rw [hs]
  · by_cases hq : q = p
    · subst hq
      rw [obsFun, obsFun, hs]
      show (mapGet (mapSet pd.Packages q _) q).bind _ = _
      rw [mapGet_set_self, hp]
      rfl
    · rw [obsFun, obsFun, hs]
      show (mapGet (mapSet pd.Packages p _) q).bind _ = _
      rw [mapGet_set_ne _ _ _ _ hq]

/-- Step `addType` preserves every already-registered type entry exactly
(create-if-absent: a duplicate declaration is silently ignored). -/
theorem addType_obsType_preserved (p : String) (pd : ProjectData)
    (ti : TypeInfo) (q t : String) (td : TypeData)
    (h : obsType pd q t = some td) :
    obsType (addType p pd ti) q t = some td := by
  rcases addType_shape p pd ti with hs | ⟨pkg, t', hp, _, ht', hs⟩
  · rw [hs, h]
  · by_cases hq : q = p
    · subst hq
      rw [obsType, hs]
      show (mapGet (mapSet pd.Packages q _) q).bind _ = _
      rw [mapGet_set_self]
      rw [obsType, hp, Option.some_bind] at h
      have htt : t ≠ t' := by
        intro hc; subst hc; rw [h] at ht'; exact Option.noConfusion ht'
      show mapGet (mapSet pkg.Types t' _) t = some td
      rw [mapGet_set_ne _ _ _ _ htt]
      exact h
    · rw [obsType, hs]
      show (mapGet (mapSet pd.Packages p _) q).bind _ = _
      rw [mapGet_set_ne _ _ _ _ hq]
      exact h

/-- Step `addType` on a fresh name in a present package registers the
canonical `TypeData` carrying the fact's kind (defaulted to `""`). -/
theorem addType_creates (p : String) (pd : ProjectData) (ti : TypeInfo)
    (t : String) (hn : ti.name = some t)
    (hpk : (mapGet pd.Packages p).isSome) (habs : obsType pd p t = none) :
    obsType (addType p pd ti) p t =
      some ⟨t, ti.kind.getD "", [], [], []⟩ := by
  rcases hp : mapGet pd.Packages p with _ | pkg
  · rw [hp] at hpk; exact absurd hpk (by simp)
  · have ht : mapGet pkg.Types t = none := by
      rw [obsType, hp, Option.some_bind] at habs; exact habs
    rw [addType, hn, hp]
    simp only [ht, Option.isSome_none, Bool.false_eq_true, if_false]
    rw [obsType]
    show (mapGet (mapSet pd.Packages p _) p).bind _ = _
    rw [mapGet_set_self, Option.some_bind, mapGet_set_self]

/-- Step `addFunction` preserves the name, kind, fields and implements of
every registered type (it can only replace a binding inside a methods
map). -/
theorem addFunction_obsType_fields (p : String) (pd : ProjectData)
    (fi : FuncInfo) (q t : String) (td : TypeData)
    (h : obsType pd q t = some td) :
    ∃ td', obsType (addFunction p pd fi) q t = some td' ∧
      td'.Name = td.Name ∧ td'.Kind = td.Kind ∧ td'.Fields = td.Fields ∧
      td'.Implements = td.Implements := by
  rcases addFunction_shape p pd fi with hs | ⟨pkg, n, hp, _, _, hs⟩ |
    ⟨pkg, n, r, td0, hp, _, _, ht0, hs⟩
  · exact ⟨td, by rw [hs, h], rfl, rfl, rfl, rfl⟩
  · by_cases hq : q = p
    · subst hq
      refine ⟨td, ?_, rfl, rfl, rfl, rfl⟩
      rw [obsType, hs]
      show (mapGet (mapSet pd.Packages q _) q).bind _ = _
      rw [mapGet_set_self, Option.some_bind]
      rw [obsType, hp, Option.some_bind] at h
      exact h
    · refine ⟨td, ?_, rfl, rfl, rfl, rfl⟩
      rw [obsType, hs]
      show (mapGet (mapSet pd.Packages p _) q).bind _ = _
      rw [mapGet_set_ne _ _ _ _ hq]
      exact h
  · by_cases hq : q = p
    · subst hq
      rw [obsType, hp, Option.some_bind] at h
      by_cases htr : t = r
      · subst htr
        rw [h] at ht0
        have heq : td = td0 := (Option.some.injEq _ _).mp ht0
        subst heq
        refine ⟨{ td with Methods := mapSet td.Methods n ⟨n, t, [], []⟩ },
          ?_, rfl, rfl, rfl, rfl⟩
        rw [obsType, hs]
        show (mapGet (mapSet pd.Packages q _) q).bind _ = _
        rw [mapGet_set_self, Option.some_bind]
        show mapGet (mapSet pkg.Types t _) t = _
        rw [mapGet_set_self]
      · refine ⟨td, ?_, rfl, rfl, rfl, rfl⟩
        rw [obsType, hs]
        show (mapGet (mapSet pd.Packages q _) q).bind _ = _
        rw [mapGet_set_self, Option.some_bind]
        show mapGet (mapSet pkg.Types r _) t = _
        rw [mapGet_set_ne _ _ _ _ htr]
        exact h
    · refine ⟨td, ?_, rfl, rfl, rfl, rfl⟩
      rw [obsType, hs]
      show (mapGet (mapSet pd.Packages p _) q).bind _ = _
      rw [mapGet_set_ne _ _ _ _ hq]
      exact h

/-- Creating an (absent) package does not change any type observation:
the fresh package has an empty types map. -/
theorem ensurePackage_obsType (pd : ProjectData) (p q t : String) :
    obsType (ensurePackage pd p) q t = obsType pd q t := by
  unfold ensurePackage
  split
  · rfl
  · next h =>
    by_cases hq : q = p
    · subst hq
      rw [obsType, obsType]
      show (mapGet (mapSet pd.Packages q _) q).bind _ = _
      rw [mapGet_set_self]
      rcases hg : mapGet pd.Packages q with _ | pkg
      · rfl
      · rw [hg] at h; simp at h
    · rw [obsType, obsType]
      show (mapGet (mapSet pd.Packages p _) q).bind _ = _
      rw [mapGet_set_ne _ _ _ _ hq]

/-- Creating an (absent) package does not change any function
observation: the fresh package has an empty functions map. -/
theorem ensurePackage_obsFun (pd : ProjectData) (p q f : String) :
    obsFun (ensurePackage pd p) q f = obsFun pd q f := by
  unfold ensurePackage
  split
  · rfl
  · next h =>
    by_cases hq : q = p
    · subst hq
      rw [obsFun, obsFun]
      show (mapGet (mapSet pd.Packages q _) q).bind _ = _
      rw [mapGet_set_self]
      rcases hg : mapGet pd.Packages q with _ | pkg
      · rfl
      · rw [hg] at h; simp at h
    · rw [obsFun, obsFun]
      show (mapGet (mapSet pd.Packages p _) q).bind _ = _
      rw [mapGet_set_ne _ _ _ _ hq]

theorem ensurePackage_obsMethod (pd : ProjectData) (p q t m : String) :
    obsMethod (ensurePackage pd p) q t m = obsMethod pd q t m := by
  rw [obsMethod, obsMethod, ensurePackage_obsType]

theorem addImports_obsType (pd : ProjectData) (p : String)
    (io : Option (List String)) (q t : String) :
    obsType (addImports pd p io) q t = obsType pd q t := by
  rw [obsType, obsType, addImports_packages]

theorem addImports_obsFun (pd : ProjectData) (p : String)
    (io : Option (List String)) (q f : String) :
    obsFun (addImports pd p io) q f = obsFun pd q f := by
  rw [obsFun, obsFun, addImports_packages]

theorem addImports_obsMethod (pd : ProjectData) (p : String)
    (io : Option (List String)) (q t m : String) :
    obsMethod (addImports pd p io) q t m = obsMethod pd q t m := by
  rw [obsMethod, obsMethod, addImports_obsType]

/-- Step `addType` does not change any method observation: it can only create
a fresh type whose methods map is empty. -/
theorem addType_obsMethod (p : String) (pd : ProjectData) (ti : TypeInfo)
    (q t m : String) :
    obsMethod (addType p pd ti) q t m = obsMethod pd q t m := by
  rcases addType_shape p pd ti with hs | ⟨pkg, t', hp, _, ht', hs⟩
  · rw [hs]
  · by_cases hq : q = p
    · subst hq
      rw [obsMethod, obsMethod, obsType, obsType, hs]
      show ((mapGet (mapSet pd.Packages q _) q).bind _).bind _ = _
      rw [mapGet_set_self, hp, Option.some_bind, Option.some_bind]
      by_cases htt : t = t'
      · subst htt
        show (mapGet (mapSet pkg.Types t _) t).bind _ = _
        rw [mapGet_set_self, ht']
        rfl
      · show (mapGet (mapSet pkg.Types t' _) t).bind _ = _
        rw [mapGet_set_ne _ _ _ _ htt]
    · rw [obsMethod, obsMethod, obsType, obsType, hs]
      show ((mapGet (mapSet pd.Packages p _) q).bind _).bind _ = _
      rw [mapGet_set_ne _ _ _ _ hq]

/-- Effect of `addFunction` on free-function observations: every entry is
either untouched or rebound to the canonical `FunctionData` of its own
name, and a binding is only written for the fact's own name, in the
target package, when the fact carries no receiver. -/
theorem addFunction_obsFun_cases (p : String) (pd : ProjectData)
    (fi : FuncInfo) (q f : String) :
    obsFun (addFunction p pd fi) q f = obsFun pd q f ∨
    (q = p ∧ fi.name = some f ∧ fi.receiver = none ∧
      obsFun (addFunction p pd fi) q f = some ⟨f, "", [], []⟩) := by
  rcases addFunction_shape p pd fi with hs | ⟨pkg, n, hp, hn, hr, hs⟩ |
    ⟨pkg, n, r, td, hp, _, _, _, hs⟩
  · rw [hs]; exact Or.inl rfl
  · by_cases hq : q = p
    · subst hq
      by_cases hf : f = n
      · subst hf
        refine Or.inr ⟨rfl, hn, hr, ?_⟩
        rw [obsFun, hs]
        show (mapGet (mapSet pd.Packages q _) q).bind _ = _
        rw [mapGet_set_self, Option.some_bind]
        show mapGet (mapSet pkg.Functions f _) f = _
        rw [mapGet_set_self]
      · refine Or.inl ?_
        rw [obsFun, obsFun, hs, hp]
        show (mapGet (mapSet pd.Packages q _) q).bind _ = _
        rw [mapGet_set_self, Option.some_bind, Option.some_bind]
        show mapGet (mapSet pkg.Functions n _) f = _
        rw [mapGet_set_ne _ _ _ _ hf]
    · refine Or.inl ?_
      rw [obsFun, obsFun, hs]
      show (mapGet (mapSet pd.Packages p _) q).bind _ = _
      rw [mapGet_set_ne _ _ _ _ hq]
  · by_cases hq : q = p
    · subst hq
      refine Or.inl ?_
      rw [obsFun, obsFun, hs, hp]
      show (mapGet (mapSet pd.Packages q _) q).bind _ = _
      rw [mapGet_set_self, Option.some_bind, Option.some_bind]
    · refine Or.inl ?_
      rw [obsFun, obsFun, hs]
      show (mapGet (mapSet pd.Packages p _) q).bind _ = _
      rw [mapGet_set_ne _ _ _ _ hq]

/-- Effect of `addFunction` on method observations: every entry is either
untouched or rebound to the canonical method of its own name and
receiver, and a binding is only written for the fact's own name, under
the fact's receiver type, in the target package. -/
theorem addFunction_obsMethod_cases (p : String) (pd : ProjectData)
    (fi : FuncInfo) (q t m : String) :
    obsMethod (addFunction p pd fi) q t m = obsMethod pd q t m ∨
    (q = p ∧ fi.name = some m ∧ fi.receiver = some t ∧
      obsMethod (addFunction p pd fi) q t m = some ⟨m, t, [], []⟩) := by
  rcases addFunction_shape p pd fi with hs | ⟨pkg, n, hp, _, _, hs⟩ |
    ⟨pkg, n, r, td, hp, hn, hr, ht, hs⟩
  · rw [hs]; exact Or.inl rfl
  · by_cases hq : q = p
    · subst hq
      refine Or.inl ?_
      rw [obsMethod, obsMethod, obsType, obsType, hs, hp]
      show ((mapGet (mapSet pd.Packages q _) q).bind _).bind _ = _
      rw [mapGet_set_self, Option.some_bind, Option.some_bind]
    · refine Or.inl ?_
      rw [obsMethod, obsMethod, obsType, obsType, hs]
      show ((mapGet (mapSet pd.Packages p _) q).bind _).bind _ = _
      rw [mapGet_set_ne _ _ _ _ hq]
  · by_cases hq : q = p
    · subst hq
      by_cases htr : t = r
      · subst htr
        by_cases hm : m = n
        · subst hm
          refine Or.inr ⟨rfl, hn, hr, ?_⟩
          rw [obsMethod, obsType, hs]
          show ((mapGet (mapSet pd.Packages q _) q).bind _).bind _ = _
          rw [mapGet_set_self, Option.some_bind]
          show (mapGet (mapSet pkg.Types t _) t).bind _ = _
          rw [mapGet_set_self, Option.some_bind]
          show mapGet (mapSet td.Methods m _) m = _
          rw [mapGet_set_self]
        · refine Or.inl ?_
          rw [obsMethod, obsMethod, obsType, obsType, hs, hp]
          show ((mapGet (mapSet pd.Packages q _) q).bind _).bind _ = _
          rw [mapGet_set_self, Option.some_bind, Option.some_bind]
          show (mapGet (mapSet pkg.Types t _) t).bind _ = _
          rw [mapGet_set_self, ht, Option.some_bind, Option.some_bind]
          show mapGet (mapSet td.Methods n _) m = _
          rw [mapGet_set_ne _ _ _ _ hm]
      · refine Or.inl ?_
        rw [obsMethod, obsMethod, obsType, obsType, hs, hp]
        show ((mapGet (mapSet pd.Packages q _) q).bind _).bind _ = _
        rw [mapGet_set_self, Option.some_bind, Option.some_bind]
        show (mapGet (mapSet pkg.Types r _) t).bind _ = _
        rw [mapGet_set_ne _ _ _ _ htr]
    · refine Or.inl ?_
      rw [obsMethod, obsMethod, obsType, obsType, hs]
      show ((mapGet (mapSet pd.Packages p _) q).bind _).bind _ = _
      rw [mapGet_set_ne _ _ _ _ hq]

/-! ### Lemmas about the `types` and `functions` loops (folds) -/

theorem foldl_addType_imports (p : String) (l : List TypeInfo)
    (pd : ProjectData) : (l.foldl (addType p) pd).Imports = pd.Imports := by
  induction l generalizing pd with
  | nil => rfl
  | cons ti tl ih => rw [List.foldl_cons, ih, addType_imports]

theorem foldl_addType_relations (p : String) (l : List TypeInfo)
    (pd : ProjectData) : (l.foldl (addType p) pd).Relations = pd.Relations := by
  induction l generalizing pd with
  | nil => rfl
  | cons ti tl ih => rw [List.foldl_cons, ih, addType_relations]

theorem foldl_addFunction_imports (p : String) (l : List FuncInfo)
    (pd : ProjectData) :
    (l.foldl (addFunction p) pd).Imports = pd.Imports := by
  induction l generalizing pd with
  | nil => rfl
  | cons fi tl ih => rw [List.foldl_cons, ih, addFunction_imports]

theorem foldl_addFunction_relations (p : String) (l : List FuncInfo)
    (pd : ProjectData) :
    (l.foldl (addFunction p) pd).Relations = pd.Relations := by
  induction l generalizing pd with
  | nil => rfl
  | cons fi tl ih => rw [List.foldl_cons, ih, addFunction_relations]

theorem foldl_addType_packages_ne (p : String) (l : List TypeInfo)
    (pd : ProjectData) (q : String) (h : q ≠ p) :
    mapGet (l.foldl (addType p) pd).Packages q = mapGet pd.Packages q := by
  induction l generalizing pd with
  | nil => rfl
  | cons ti tl ih => rw [List.foldl_cons, ih, addType_packages_ne _ _ _ _ h]

theorem foldl_addFunction_packages_ne (p : String) (l : List FuncInfo)
    (pd : ProjectData) (q : String) (h : q ≠ p) :
    mapGet (l.foldl (addFunction p) pd).Packages q = mapGet pd.Packages q := by
  induction l generalizing pd with
  | nil => rfl
  | cons fi tl ih =>
    rw [List.foldl_cons, ih, addFunction_packages_ne _ _ _ _ h]

theorem foldl_addType_obsFun (p : String) (l : List TypeInfo)
    (pd : ProjectData) (q f : String) :
    obsFun (l.foldl (addType p) pd) q f = obsFun pd q f := by
  induction l generalizing pd with
  | nil => rfl
  | cons ti tl ih => rw [List.foldl_cons, ih, addType_obsFun]

theorem foldl_addType_obsMethod (p : String) (l : List TypeInfo)
    (pd : ProjectData) (q t m : String) :
    obsMethod (l.foldl (addType p) pd) q t m = obsMethod pd q t m := by
  induction l generalizing pd with
  | nil => rfl
  | cons ti tl ih => rw [List.foldl_cons, ih, addType_obsMethod]

theorem foldl_addType_obsType_preserved (p : String) (l : List TypeInfo)
    (pd : ProjectData) (q t : String) (td : TypeData)
    (h : obsType pd q t = some td) :
    obsType (l.foldl (addType p) pd) q t = some td := by
  induction l generalizing pd with
  | nil => exact h
  | cons ti tl ih =>
    rw [List.foldl_cons]
    exact ih _ (addType_obsType_preserved _ _ _ _ _ _ h)

theorem foldl_addFunction_obsType_fields (p : String) (l : List FuncInfo)
    (pd : ProjectData) (q t : String) (td : TypeData)
    (h : obsType pd q t = some td) :
    ∃ td', obsType (l.foldl (addFunction p) pd) q t = some td' ∧
      td'.Name = td.Name ∧ td'.Kind = td.Kind ∧ td'.Fields = td.Fields ∧
      td'.Implements = td.Implements := by
  induction l generalizing pd td with
  | nil => exact ⟨td, h, rfl, rfl, rfl, rfl⟩
  | cons fi tl ih =>
    rw [List.foldl_cons]
    obtain ⟨td1, h1, hn1, hk1, hf1, hi1⟩ :=
      addFunction_obsType_fields p pd fi q t td h
    obtain ⟨td2, h2, hn2, hk2, hf2, hi2⟩ := ih _ _ h1
    exact ⟨td2, h2, hn2.trans hn1, hk2.trans hk1, hf2.trans hf1,
      hi2.trans hi1⟩

theorem foldl_addFunction_obsFun_mono (p : String) (l : List FuncInfo)
    (pd : ProjectData) (q f : String) (h : (obsFun pd q f).isSome) :
    (obsFun (l.foldl (addFunction p) pd) q f).isSome := by
  induction l generalizing pd with
  | nil => exact h
  | cons fi tl ih =>
    rw [List.foldl_cons]
    refine ih _ ?_
    rcases addFunction_obsFun_cases p pd fi q f with hc | ⟨_, _, _, hc⟩ <;>
      rw [hc] <;> simp_all

theorem foldl_addFunction_obsMethod_mono (p : String) (l : List FuncInfo)
    (pd : ProjectData) (q t m : String) (h : (obsMethod pd q t m).isSome) :
    (obsMethod (l.foldl (addFunction p) pd) q t m).isSome := by
  induction l generalizing pd with
  | nil => exact h
  | cons fi tl ih =>
    rw [List.foldl_cons]
    refine ih _ ?_
    rcases addFunction_obsMethod_cases p pd fi q t m with hc | ⟨_, _, _, hc⟩ <;>
      rw [hc] <;> simp_all

/-! ### Lemmas about `mergeFileData` as a whole -/

/-- A file whose facts carry no (string-typed) package name is merged as
a complete no-op. -/
theorem mergeFileData_absent (pd : ProjectData) (f : FileFacts)
    (path : String) (h : f.package = none) :
    mergeFileData pd f path = pd := by
  rw [mergeFileData, h]

theorem mergeFileData_relations (pd : ProjectData) (f : FileFacts)
    (path : String) : (mergeFileData pd f path).Relations = pd.Relations := by
  rcases hp : f.package with _ | p
  · rw [mergeFileData_absent pd f path hp]
  · rw [mergeFileData, hp]
    rw [foldl_addFunction_relations, foldl_addType_relations,
      addImports_relations, ensurePackage_relations]

theorem mergeFileData_imports_ne (pd : ProjectData) (f : FileFacts)
    (path : String) (p q : String) (hp : f.package = some p) (hq : q ≠ p) :
    mapGet (mergeFileData pd f path).Imports q = mapGet pd.Imports q := by
  rw [mergeFileData, hp]
  rw [foldl_addFunction_imports, foldl_addType_imports]
  rcases f.imports with _ | i
  · rw [addImports, ensurePackage_imports]
  · show mapGet (mapSet _ p _) q = _
    rw [mapGet_set_ne _ _ _ _ hq, ensurePackage_imports]

theorem mergeFileData_packages_ne (pd : ProjectData) (f : FileFacts)
    (path : String) (p q : String) (hp : f.package = some p) (hq : q ≠ p) :
    mapGet (mergeFileData pd f path).Packages q = mapGet pd.Packages q := by
  rw [mergeFileData, hp]
  rw [foldl_addFunction_packages_ne _ _ _ _ hq,
    foldl_addType_packages_ne _ _ _ _ hq, addImports_packages,
    ensurePackage_packages_ne _ _ _ hq]

/-- The imports map after a merge: the target package's entry grows by
the file's import list (when the imports assertion succeeds), and
nothing else changes. -/
theorem mergeFileData_imports_self (pd : ProjectData) (f : FileFacts)
    (path : String) (p : String) (hp : f.package = some p) :
    mapGet (mergeFileData pd f path).Imports p =
      match f.imports with
      | none => mapGet pd.Imports p
      | some i => some ((mapGet pd.Imports p).getD [] ++ i) := by
  rw [mergeFileData, hp]
  rw [foldl_addFunction_imports, foldl_addType_imports]
  rcases f.imports with _ | i
  · rw [addImports, ensurePackage_imports]
  · show mapGet (mapSet _ p _) p = _
    rw [mapGet_set_self, ensurePackage_imports]

/-! ### Package-key lemmas -/

theorem addType_packages_keys (p : String) (pd : ProjectData)
    (ti : TypeInfo) : mapKeys (addType p pd ti).Packages = mapKeys pd.Packages := by
  rcases addType_shape p pd ti with hs | ⟨pkg, t, hp, _, _, hs⟩
  · rw [hs]
  · rw [hs]
    exact mapKeys_set_present _ _ _ (by rw [hp]; rfl)

theorem addFunction_packages_keys (p : String) (pd : ProjectData)
    (fi : FuncInfo) :
    mapKeys (addFunction p pd fi).Packages = mapKeys pd.Packages := by
  rcases addFunction_shape p pd fi with hs | ⟨pkg, n, hp, _, _, hs⟩ |
    ⟨pkg, n, r, td, hp, _, _, _, hs⟩ <;> rw [hs]
  · exact mapKeys_set_present _ _ _ (by rw [hp]; rfl)
  · exact mapKeys_set_present _ _ _ (by rw [hp]; rfl)

theorem foldl_addType_packages_keys (p : String) (l : List TypeInfo)
    (pd : ProjectData) :
    mapKeys (l.foldl (addType p) pd).Packages = mapKeys pd.Packages := by
  induction l generalizing pd with
  | nil => rfl
  | cons ti tl ih => rw [List.foldl_cons, ih, addType_packages_keys]

theorem foldl_addFunction_packages_keys (p : String) (l : List FuncInfo)
    (pd : ProjectData) :
    mapKeys (l.foldl (addFunction p) pd).Packages = mapKeys pd.Packages := by
  induction l generalizing pd with
  | nil => rfl
  | cons fi tl ih => rw [List.foldl_cons, ih, addFunction_packages_keys]

/-- The key set of the packages map after a merge: unchanged when the
declared package already exists, extended by exactly the declared name
otherwise. -/
theorem mergeFileData_packages_keys (pd : ProjectData) (f : FileFacts)
    (path : String) (p : String) (hp : f.package = some p) :
    mapKeys (mergeFileData pd f path).Packages =
      if (mapGet pd.Packages p).isSome then mapKeys pd.Packages
      else mapKeys pd.Packages ++ [p] := by
  rw [mergeFileData, hp]
  rw [foldl_addFunction_packages_keys, foldl_addType_packages_keys]
  have : (addImports (ensurePackage pd p) p f.imports).Packages =
      (ensurePackage pd p).Packages := addImports_packages _ _ _
  rw [mapKeys, this, ← mapKeys]
  unfold ensurePackage
  split
  · rfl
  · next h =>
    exact mapKeys_set_absent _ _ _ (by
      rcases hg : mapGet pd.Packages p with _ | pkg
      · rfl
      · rw [hg] at h; simp at h)

/-! ### The canonical-state invariant

Every model reachable from the empty project by merges has: key-coherent
names at every level, duplicate-free keys, empty fields/implements (the
extractor stubs never populate them), free functions that are exactly
the canonical record of their key, and methods that are exactly the
canonical record of their key and receiver type. -/

/-- The `FunctionData` built by `mergeFileData` for a free function. -/
def canonFun (f : String) : FunctionData :=
  { Name := f, Receiver := "", Parameters := [], Returns := [] }

/-- The `FunctionData` built by `mergeFileData` for a method of type `t`. -/
def canonMethod (t m : String) : FunctionData :=
  { Name := m, Receiver := t, Parameters := [], Returns := [] }

/-- Canonical shape of a registered type entry. -/
def TypeCanon (t : String) (td : TypeData) : Prop :=
  td.Name = t ∧ td.Fields = [] ∧ td.Implements = [] ∧
  (mapKeys td.Methods).Nodup ∧
  ∀ m md, mapGet td.Methods m = some md → md = canonMethod t m

/-- Canonical shape of a registered package entry. -/
def PkgCanon (p : String) (pkg : PackageData) : Prop :=
  pkg.Name = p ∧ (mapKeys pkg.Types).Nodup ∧
  (mapKeys pkg.Functions).Nodup ∧
  (∀ f fd, mapGet pkg.Functions f = some fd → fd = canonFun f) ∧
  (∀ t td, mapGet pkg.Types t = some td → TypeCanon t td)

/-- Canonical shape of a whole project model. -/
def Canon (pd : ProjectData) : Prop :=
  (mapKeys pd.Packages).Nodup ∧
  ∀ p pkg, mapGet pd.Packages p = some pkg → PkgCanon p pkg

theorem canon_emptyProject : Canon emptyProject := by
  constructor
  · simp [emptyProject, mapKeys]
  · intro p pkg h
    simp [emptyProject, mapGet] at h

theorem ensurePackage_canon (pd : ProjectData) (p : String)
    (h : Canon pd) : Canon (ensurePackage pd p) := by
  unfold ensurePackage
  split
  · exact h
  · next habs =>
    have hnone : mapGet pd.Packages p = none := by
      rcases hg : mapGet pd.Packages p with _ | pkg
      · rfl
      · rw [hg] at habs; simp at habs
    obtain ⟨hnd, hpk⟩ := h
    refine ⟨nodup_mapKeys_set _ _ _ hnd, ?_⟩
    intro q pkg hq
    rcases mapGet_set_cases _ _ _ _ _ hq with ⟨hqp, hpkg⟩ | ⟨_, hold⟩
    · subst hqp hpkg
      exact ⟨rfl, List.nodup_nil, List.nodup_nil,
        fun f fd hf => by simp [mapGet] at hf,
        fun t td ht => by simp [mapGet] at ht⟩
    · exact hpk q pkg hold

theorem addImports_canon (pd : ProjectData) (p : String)
    (io : Option (List String)) (h : Canon pd) :
    Canon (addImports pd p io) := by
  unfold Canon
  rw [addImports_packages]
  exact h

theorem addType_canon (p : String) (pd : ProjectData) (ti : TypeInfo)
    (h : Canon pd) : Canon (addType p pd ti) := by
  rcases addType_shape p pd ti with hs | ⟨pkg, t, hp, _, ht, hs⟩
  · rw [hs]; exact h
  · obtain ⟨hnd, hpk⟩ := h
    obtain ⟨hname, hndT, hndF, hfun, htyp⟩ := hpk p pkg hp
    rw [hs]
    refine ⟨?_, ?_⟩
    · show (mapKeys (mapSet pd.Packages p _)).Nodup
      rw [mapKeys_set_present _ _ _ (by rw [hp]; rfl)]
      exact hnd
    · intro q pkg' hq
      rcases mapGet_set_cases _ _ _ _ _ hq with ⟨hqp, hpkg⟩ | ⟨_, hold⟩
      · subst hqp; subst hpkg
        refine ⟨hname, ?_, hndF, hfun, ?_⟩
        · exact nodup_mapKeys_set _ _ _ hndT
        · intro t' td' ht'
          rcases mapGet_set_cases _ _ _ _ _ ht' with ⟨htt, htd⟩ | ⟨_, holdt⟩
          · subst htt; subst htd
            exact ⟨rfl, rfl, rfl, List.nodup_nil,
              fun m md hm => by simp [mapGet] at hm⟩
          · exact htyp t' td' holdt
      · exact hpk q pkg' hold

theorem addFunction_canon (p : String) (pd : ProjectData) (fi : FuncInfo)
    (h : Canon pd) : Canon (addFunction p pd fi) := by
  rcases addFunction_shape p pd fi with hs | ⟨pkg, n, hp, _, _, hs⟩ |
    ⟨pkg, n, r, td, hp, _, _, ht, hs⟩
  · rw [hs]; exact h
  · obtain ⟨hnd, hpk⟩ := h
    obtain ⟨hname, hndT, hndF, hfun, htyp⟩ := hpk p pkg hp
    rw [hs]
    refine ⟨?_, ?_⟩
    · show (mapKeys (mapSet pd.Packages p _)).Nodup
      rw [mapKeys_set_present _ _ _ (by rw [hp]; rfl)]
      exact hnd
    · intro q pkg' hq
      rcases mapGet_set_cases _ _ _ _ _ hq with ⟨hqp, hpkg⟩ | ⟨_, hold⟩
      · subst hqp; subst hpkg
        refine ⟨hname, hndT, ?_, ?_, htyp⟩
        · exact nodup_mapKeys_set _ _ _ hndF
        · intro f fd hf
          rcases mapGet_set_cases _ _ _ _ _ hf with ⟨hfn, hfd⟩ | ⟨_, holdf⟩
          · subst hfn; subst hfd; rfl
          · exact hfun f fd holdf
      · exact hpk q pkg' hold
  · obtain ⟨hnd, hpk⟩ := h
    obtain ⟨hname, hndT, hndF, hfun, htyp⟩ := hpk p pkg hp
    obtain ⟨htdn, htdf, htdi, hndM, hmeth⟩ := htyp r td ht
    rw [hs]
    refine ⟨?_, ?_⟩
    · show (mapKeys (mapSet pd.Packages p _)).Nodup
      rw [mapKeys_set_present _ _ _ (by rw [hp]; rfl)]
      exact hnd
    · intro q pkg' hq
      rcases mapGet_set_cases _ _ _ _ _ hq with ⟨hqp, hpkg⟩ | ⟨_, hold⟩
      · subst hqp; subst hpkg
        refine ⟨hname, ?_, hndF, hfun, ?_⟩
        · show (mapKeys (mapSet pkg.Types r _)).Nodup
          rw [mapKeys_set_present _ _ _ (by rw [ht]; rfl)]
          exact hndT
        · intro t' td' ht'
          rcases mapGet_set_cases _ _ _ _ _ ht' with ⟨htt, htd⟩ | ⟨_, holdt⟩
          · subst htt; subst htd
            refine ⟨htdn, htdf, htdi, ?_, ?_⟩
            · exact nodup_mapKeys_set _ _ _ hndM
            · intro m md hm
              rcases mapGet_set_cases _ _ _ _ _ hm with ⟨hmn, hmd⟩ | ⟨_, holdm⟩
              · subst hmn; subst hmd; rfl
              · exact hmeth m md holdm
          · exact htyp t' td' holdt
      · exact hpk q pkg' hold

theorem foldl_addType_canon (p : String) (l : List TypeInfo)
    (pd : ProjectData) (h : Canon pd) : Canon (l.foldl (addType p) pd) := by
  induction l generalizing pd with
  | nil => exact h
  | cons ti tl ih => exact ih _ (addType_canon p pd ti h)

theorem foldl_addFunction_canon (p : String) (l : List FuncInfo)
    (pd : ProjectData) (h : Canon pd) :
    Canon (l.foldl (addFunction p) pd) := by
  induction l generalizing pd with
  | nil => exact h
  | cons fi tl ih => exact ih _ (addFunction_canon p pd fi h)

theorem mergeFileData_canon (pd : ProjectData) (f : FileFacts)
    (path : String) (h : Canon pd) : Canon (mergeFileData pd f path) := by
  rcases hp : f.package with _ | p
  · rw [mergeFileData_absent pd f path hp]; exact h
  · rw [mergeFileData, hp]
    exact foldl_addFunction_canon _ _ _ (foldl_addType_canon _ _ _
      (addImports_canon _ _ _ (ensurePackage_canon _ _ h)))

theorem mergeList_canon (pd : ProjectData) (l : List (FileFacts × String))
    (h : Canon pd) : Canon (mergeList pd l) := by
  induction l generalizing pd with
  | nil => exact h
  | cons fp tl ih => exact ih _ (mergeFileData_canon _ _ _ h)

/-! ### Merge-level observation lemmas -/

/-- A registered free function never disappears during a merge. -/
theorem mergeFileData_obsFun_mono (pd : ProjectData) (f : FileFacts)
    (path : String) (q n : String) (h : (obsFun pd q n).isSome) :
    (obsFun (mergeFileData pd f path) q n).isSome := by
  rcases hp : f.package with _ | p
  · rw [mergeFileData_absent pd f path hp]; exact h
  · rw [mergeFileData, hp]
    apply foldl_addFunction_obsFun_mono
    rw [foldl_addType_obsFun, addImports_obsFun, ensurePackage_obsFun]
    exact h

/-- A registered method never disappears during a merge. -/
theorem mergeFileData_obsMethod_mono (pd : ProjectData) (f : FileFacts)
    (path : String) (q t m : String) (h : (obsMethod pd q t m).isSome) :
    (obsMethod (mergeFileData pd f path) q t m).isSome := by
  rcases hp : f.package with _ | p
  · rw [mergeFileData_absent pd f path hp]; exact h
  · rw [mergeFileData, hp]
    apply foldl_addFunction_obsMethod_mono
    rw [foldl_addType_obsMethod, addImports_obsMethod, ensurePackage_obsMethod]
    exact h

/-- A merge preserves the name, kind, fields and implements of every
registered type (its methods map may gain or replace bindings). -/
theorem mergeFileData_obsType_fields (pd : ProjectData) (f : FileFacts)
    (path : String) (q t : String) (td : TypeData)
    (h : obsType pd q t = some td) :
    ∃ td', obsType (mergeFileData pd f path) q t = some td' ∧
      td'.Name = td.Name ∧ td'.Kind = td.Kind ∧ td'.Fields = td.Fields ∧
      td'.Implements = td.Implements := by
  rcases hp : f.package with _ | p
  · rw [mergeFileData_absent pd f path hp]
    exact ⟨td, h, rfl, rfl, rfl, rfl⟩
  · rw [mergeFileData, hp]
    apply foldl_addFunction_obsType_fields
    apply foldl_addType_obsType_preserved
    rw [addImports_obsType, ensurePackage_obsType]
    exact h

/-- In a canonical model, every free-function entry is the canonical
record of its key. -/
theorem canon_obsFun_value (pd : ProjectData) (q n : String)
    (fd : FunctionData) (h : Canon pd) (hf : obsFun pd q n = some fd) :
    fd = canonFun n := by
  obtain ⟨_, hpk⟩ := h
  rw [obsFun] at hf
  rcases hg : mapGet pd.Packages q with _ | pkg
  · rw [hg] at hf; exact Option.noConfusion hf
  · rw [hg, Option.some_bind] at hf
    obtain ⟨_, _, _, hfun, _⟩ := hpk q pkg hg
    exact hfun n fd hf

/-- In a canonical model, every method entry is the canonical record of
its key and its receiver type's key. -/
theorem canon_obsMethod_value (pd : ProjectData) (q t m : String)
    (md : FunctionData) (h : Canon pd) (hm : obsMethod pd q t m = some md) :
    md = canonMethod t m := by
  obtain ⟨_, hpk⟩ := h
  rw [obsMethod, obsType] at hm
  rcases hg : mapGet pd.Packages q with _ | pkg
  · rw [hg] at hm; exact Option.noConfusion hm
  · rw [hg, Option.some_bind] at hm
    rcases ht : mapGet pkg.Types t with _ | td
    · rw [ht] at hm; exact Option.noConfusion hm
    · rw [ht, Option.some_bind] at hm
      obtain ⟨_, _, _, _, htyp⟩ := hpk q pkg hg
      obtain ⟨_, _, _, _, hmeth⟩ := htyp t td ht
      exact hmeth m md hm

/-- An existing package entry survives `ensurePackage` untouched. -/
theorem ensurePackage_get_preserved (pd : ProjectData) (p q : String)
    (pkg : PackageData) (h : mapGet pd.Packages q = some pkg) :
    mapGet (ensurePackage pd p).Packages q = some pkg := by
  unfold ensurePackage
  split
  · exact h
  · next habs =>
    by_cases hq : q = p
    · subst hq
      rw [h] at habs; simp at habs
    · show mapGet (mapSet pd.Packages p _) q = _
      rw [mapGet_set_ne _ _ _ _ hq]
      exact h

theorem addType_pkgName (p : String) (pd : ProjectData) (ti : TypeInfo)
    (q : String) :
    (mapGet (addType p pd ti).Packages q).map PackageData.Name =
      (mapGet pd.Packages q).map PackageData.Name := by
  rcases addType_shape p pd ti with hs | ⟨pkg, t, hp, _, _, hs⟩
  · rw [hs]
  · rw [hs]
    by_cases hq : q = p
    · subst hq
      show (mapGet (mapSet pd.Packages q _) q).map _ = _
      rw [mapGet_set_self, hp]
      rfl
    · show (mapGet (mapSet pd.Packages p _) q).map _ = _
      rw [mapGet_set_ne _ _ _ _ hq]

theorem addFunction_pkgName (p : String) (pd : ProjectData) (fi : FuncInfo)
    (q : String) :
    (mapGet (addFunction p pd fi).Packages q).map PackageData.Name =
      (mapGet pd.Packages q).map PackageData.Name := by
  rcases addFunction_shape p pd fi with hs | ⟨pkg, n, hp, _, _, hs⟩ |
    ⟨pkg, n, r, td, hp, _, _, _, hs⟩
  · rw [hs]
  · rw [hs]
    by_cases hq : q = p
    · subst hq
      show (mapGet (mapSet pd.Packages q _) q).map _ = _
      rw [mapGet_set_self, hp]
      rfl
    · show (mapGet (mapSet pd.Packages p _) q).map _ = _
      rw [mapGet_set_ne _ _ _ _ hq]
  · rw [hs]
    by_cases hq : q = p
    · subst hq
      show (mapGet (mapSet pd.Packages q _) q).map _ = _
      rw [mapGet_set_self, hp]
      rfl
    · show (mapGet (mapSet pd.Packages p _) q).map _ = _
      rw [mapGet_set_ne _ _ _ _ hq]

theorem foldl_addType_pkgName (p : String) (l : List TypeInfo)
    (pd : ProjectData) (q : String) :
    (mapGet (l.foldl (addType p) pd).Packages q).map PackageData.Name =
      (mapGet pd.Packages q).map PackageData.Name := by
  induction l generalizing pd with
  | nil => rfl
  | cons ti tl ih => rw [List.foldl_cons, ih, addType_pkgName]

theorem foldl_addFunction_pkgName (p : String) (l : List FuncInfo)
    (pd : ProjectData) (q : String) :
    (mapGet (l.foldl (addFunction p) pd).Packages q).map PackageData.Name =
      (mapGet pd.Packages q).map PackageData.Name := by
  induction l generalizing pd with
  | nil => rfl
  | cons fi tl ih => rw [List.foldl_cons, ih, addFunction_pkgName]

/-- A merge preserves the `Name` identity of every already-registered
package, whichever package the merged file declares. -/
theorem mergeFileData_pkgName_preserved (pd : ProjectData) (f : FileFacts)
    (path : String) (q : String) (pkg : PackageData)
    (h : mapGet pd.Packages q = some pkg) :
    ∃ pkg', mapGet (mergeFileData pd f path).Packages q = some pkg' ∧
      pkg'.Name = pkg.Name := by
  rcases hp : f.package with _ | p
  · exact ⟨pkg, by rw [mergeFileData_absent pd f path hp]; exact h, rfl⟩
  · rw [mergeFileData, hp]
    have h1 : mapGet (addImports (ensurePackage pd p) p f.imports).Packages q
        = some pkg := by
      rw [addImports_packages]
      exact ensurePackage_get_preserved pd p q pkg h
    have h2 := foldl_addType_pkgName p (f.types.getD [])
      (addImports (ensurePackage pd p) p f.imports) q
    rw [h1] at h2
    have h3 := foldl_addFunction_pkgName p (f.functions.getD [])
      ((f.types.getD []).foldl (addType p)
        (addImports (ensurePackage pd p) p f.imports)) q
    rw [h2] at h3
    rcases hg : mapGet ((f.functions.getD []).foldl (addFunction p)
        ((f.types.getD []).foldl (addType p)
          (addImports (ensurePackage pd p) p f.imports))).Packages q
      with _ | pkg'
    · rw [hg] at h3; exact Option.noConfusion h3
    · rw [hg] at h3
      exact ⟨pkg', rfl, Option.some.injEq .. ▸ h3⟩

/-! ### Lemmas about merging a whole list of files -/

/-- Concatenation of a list of lists, in order. -/
def joinAll {α : Type} : List (List α) → List α
  | [] => []
  | x :: xs => x ++ joinAll xs

theorem mergeList_relations (pd : ProjectData)
    (l : List (FileFacts × String)) :
    (mergeList pd l).Relations = pd.Relations := by
  induction l generalizing pd with
  | nil => rfl
  | cons fp tl ih => rw [mergeList, ih, mergeFileData_relations]

/-- The target package's accumulated import list grows by exactly the
file's import list on each merge. -/
theorem mergeFileData_imports_getD (pd : ProjectData) (f : FileFacts)
    (path : String) (p : String) (hp : f.package = some p) :
    (mapGet (mergeFileData pd f path).Imports p).getD [] =
      (mapGet pd.Imports p).getD [] ++ f.imports.getD [] := by
  rw [mergeFileData, hp]
  rw [foldl_addFunction_imports, foldl_addType_imports]
  rcases hi : f.imports with _ | i
  · simp [addImports, ensurePackage_imports]
  · show (mapGet (mapSet _ p _) p).getD [] = _
    rw [mapGet_set_self]
    show (mapGet (ensurePackage pd p).Imports p).getD [] ++ i = _
    rw [ensurePackage_imports]
    rfl

/-- Accumulated imports after merging a list of files all declaring
package `p`: the prior entry extended by each file's import list, in
file order. -/
theorem mergeList_imports_getD (l : List (FileFacts × String))
    (pd : ProjectData) (p : String)
    (hp : ∀ fp ∈ l, (fp.1 : FileFacts).package = some p) :
    (mapGet (mergeList pd l).Imports p).getD [] =
      (mapGet pd.Imports p).getD [] ++
        joinAll (l.map fun fp => (fp.1.imports).getD []) := by
  induction l generalizing pd with
  | nil => simp [mergeList, joinAll]
  | cons fp tl ih =>
    rw [mergeList]
    rw [ih _ (fun g hg => hp g (List.mem_cons_of_mem fp hg))]
    rw [mergeFileData_imports_getD pd fp.1 fp.2 p (hp fp (List.mem_cons_self fp tl))]
    rw [List.map_cons]
    show _ = _ ++ (fp.1.imports.getD [] ++ _)
    rw [List.append_assoc]

/-- The package declared by a merged file is present afterwards. -/
theorem mergeFileData_target_present (pd : ProjectData) (f : FileFacts)
    (path : String) (p : String) (hp : f.package = some p) :
    (mapGet (mergeFileData pd f path).Packages p).isSome := by
  rw [mergeFileData, hp]
  have hens : (mapGet (ensurePackage pd p).Packages p).isSome := by
    unfold ensurePackage
    split
    · next h => exact h
    · show (mapGet (mapSet pd.Packages p _) p).isSome
      rw [mapGet_set_self]
      rfl
  rw [← mem_mapKeys_iff, foldl_addFunction_packages_keys,
    foldl_addType_packages_keys, addImports_packages, mem_mapKeys_iff]
  exact hens

/-- A package is present after a merge iff it was present before or it
is the file's declared package. -/
theorem mergeFileData_packages_isSome (pd : ProjectData) (f : FileFacts)
    (path : String) (q : String) :
    (mapGet (mergeFileData pd f path).Packages q).isSome ↔
      (mapGet pd.Packages q).isSome ∨ f.package = some q := by
  rcases hp : f.package with _ | p
  · rw [mergeFileData_absent pd f path hp]
    simp
  · by_cases hq : q = p
    · subst hq
      constructor
      · intro _
        exact Or.inr rfl
      · intro _
        exact mergeFileData_target_present pd f path q hp
    · rw [mergeFileData_packages_ne pd f path p q hp hq]
      constructor
      · exact Or.inl
      · rintro (h | h)
        · exact h
        · exact absurd ((Option.some.injEq _ _).mp h).symm hq

/-- A package is present after merging a list iff it was present before
or one of the files declares it. -/
theorem mergeList_packages_isSome (l : List (FileFacts × String))
    (pd : ProjectData) (q : String) :
    (mapGet (mergeList pd l).Packages q).isSome ↔
      (mapGet pd.Packages q).isSome ∨
        ∃ fp ∈ l, (fp.1 : FileFacts).package = some q := by
  induction l generalizing pd with
  | nil => simp [mergeList]
  | cons fp tl ih =>
    rw [mergeList, ih, mergeFileData_packages_isSome]
    constructor
    · rintro ((h | h) | ⟨g, hg, hgq⟩)
      · exact Or.inl h
      · exact Or.inr ⟨fp, List.mem_cons_self fp tl, h⟩
      · exact Or.inr ⟨g, List.mem_cons_of_mem fp hg, hgq⟩
    · rintro (h | ⟨g, hg, hgq⟩)
      · exact Or.inl (Or.inl h)
      · rcases List.mem_cons.mp hg with hh | hh
        · subst hh
          exact Or.inl (Or.inr hgq)
        · exact Or.inr ⟨g, hh, hgq⟩

/-! ### Auxiliary lemmas for the claim theorems -/

theorem ensurePackage_present (pd : ProjectData) (p : String) :
    (mapGet (ensurePackage pd p).Packages p).isSome := by
  unfold ensurePackage
  split
  · next h => exact h
  · show (mapGet (mapSet pd.Packages p _) p).isSome
    rw [mapGet_set_self]
    rfl

/-- Merging a function fact with a receiver whose type is registered
stores the canonical method under that type. -/
theorem addFunction_attach (p n r : String) (pd : ProjectData)
    (td : TypeData) (h : obsType pd p r = some td) :
    obsMethod (addFunction p pd ⟨some n, some r⟩) p r n =
      some (canonMethod r n) := by
  rcases hg : mapGet pd.Packages p with _ | pkg
  · rw [obsType, hg] at h
    exact Option.noConfusion h
  · rw [obsType, hg, Option.some_bind] at h
    unfold addFunction
    simp only [hg, h]
    rw [obsMethod, obsType]
    show ((mapGet (mapSet pd.Packages p _) p).bind _).bind _ = _
    rw [mapGet_set_self, Option.some_bind]
    show (mapGet (mapSet pkg.Types r _) r).bind _ = _
    rw [mapGet_set_self, Option.some_bind]
    show mapGet (mapSet td.Methods n _) n = _
    rw [mapGet_set_self]
    rfl

/-- Merging a function fact with a receiver whose type is not registered
is a complete no-op: the fact is dropped, nothing is recorded anywhere,
and no retry structure exists. -/
theorem addFunction_drop (p n r : String) (pd : ProjectData)
    (h : obsType pd p r = none) :
    addFunction p pd ⟨some n, some r⟩ = pd := by
  rcases hg : mapGet pd.Packages p with _ | pkg
  · unfold addFunction
    simp only [hg]
  · rw [obsType, hg, Option.some_bind] at h
    unfold addFunction
    simp only [hg, h]

/-- Registering a free-function fact in a present package stores the
canonical record under the package's functions map. -/
theorem addFunction_free_registers (p n : String) (pd : ProjectData)
    (pkg : PackageData) (h : mapGet pd.Packages p = some pkg) :
    obsFun (addFunction p pd ⟨some n, none⟩) p n = some (canonFun n) := by
  unfold addFunction
  simp only [h]
  rw [obsFun]
  show (mapGet (mapSet pd.Packages p _) p).bind _ = _
  rw [mapGet_set_self, Option.some_bind]
  show mapGet (mapSet pkg.Functions n _) n = _
  rw [mapGet_set_self]
  rfl

/-- A function fact that carries a receiver never touches any functions
map. -/
theorem addFunction_receiver_obsFun (p : String) (pd : ProjectData)
    (fi : FuncInfo) (r : String) (hr : fi.receiver = some r)
    (q f0 : String) :
    obsFun (addFunction p pd fi) q f0 = obsFun pd q f0 := by
  rcases addFunction_obsFun_cases p pd fi q f0 with h | ⟨_, _, hnone, _⟩
  · exact h
  · rw [hr] at hnone
    exact Option.noConfusion hnone

/-- Composition: `filepath.Walk` over a concatenation of entry lists. -/
theorem walkAll_append (l1 l2 : List WalkEntry) (pd : ProjectData) :
    walkAll pd (l1 ++ l2) =
      match walkAll pd l1 with
      | .error e => .error e
      | .ok pd' => walkAll pd' l2 := by
  induction l1 generalizing pd with
  | nil => rfl
  | cons e tl ih =>
    rw [List.cons_append, walkAll, walkAll]
    rcases walkStep pd e with err | pd'
    · rfl
    · exact ih pd'

theorem joinAll_count {α : Type} [DecidableEq α] (ls : List (List α))
    (x : α) : (joinAll ls).count x = (ls.map fun l => l.count x).sum := by
  induction ls with
  | nil => rfl
  | cons l tl ih => rw [joinAll, List.count_append, List.map_cons,
      List.sum_cons, ih]

theorem sum_map_ones {α : Type} (l : List α) (g : α → Nat)
    (h : ∀ a ∈ l, g a = 1) : (l.map g).sum = l.length := by
  induction l with
  | nil => rfl
  | cons a tl ih =>
    rw [List.map_cons, List.sum_cons, h a (List.mem_cons_self a tl),
      ih fun b hb => h b (List.mem_cons_of_mem a hb), List.length_cons,
      Nat.add_comm]

/-- Merging a file that declares exactly one type fact over a state where
that type is absent registers it with the fact's kind, empty fields and
empty implements (later function facts in the same file can only touch
its methods map). -/
theorem mergeFileData_type_registered (pd : ProjectData) (f : FileFacts)
    (path p t : String) (k : Option String) (hp : f.package = some p)
    (hty : f.types = some [⟨some t, k⟩]) (habs : obsType pd p t = none) :
    ∃ td, obsType (mergeFileData pd f path) p t = some td ∧
      td.Name = t ∧ td.Kind = k.getD "" ∧ td.Fields = [] ∧
      td.Implements = [] := by
  rw [mergeFileData, hp, hty]
  have hpk2 : (mapGet (addImports (ensurePackage pd p) p
      f.imports).Packages p).isSome := by
    rw [addImports_packages]
    exact ensurePackage_present pd p
  have habs2 : obsType (addImports (ensurePackage pd p) p f.imports) p t
      = none := by
    rw [addImports_obsType, ensurePackage_obsType]
    exact habs
  have hcr := addType_creates p (addImports (ensurePackage pd p) p f.imports)
    ⟨some t, k⟩ t rfl hpk2 habs2
  obtain ⟨td', h', hn', hk', hf', hi'⟩ :=
    foldl_addFunction_obsType_fields p (f.functions.getD []) _ p t _ hcr
  exact ⟨td', h', hn', hk', hf', hi'⟩

/-! ### Claim theorems -/

/-- C2: merging a function-declaration fact that carries a receiver-type
name stores the function in the registered receiver type's methods map
when that type is registered in the declared package at that moment, and
is a complete no-op (the fact appears nowhere and no retry structure
exists) when it is not; consequently the model is order-dependent when a
type and its methods come from different files, witnessed by a concrete
pair of files merged in both orders. -/
theorem c2_method_attachment_order_dependent (p n r : String)
    (pd : ProjectData) (td : TypeData) :
    (obsType pd p r = some td →
      obsMethod (addFunction p pd ⟨some n, some r⟩) p r n =
        some (canonMethod r n)) ∧
    (obsType pd p r = none → addFunction p pd ⟨some n, some r⟩ = pd) ∧
    (mergeList emptyProject
        [(⟨some "p", none, some [⟨some "T", some "struct"⟩], none⟩, "a.go"),
         (⟨some "p", none, none, some [⟨some "M", some "T"⟩]⟩, "b.go")] ≠
      mergeList emptyProject
        [(⟨some "p", none, none, some [⟨some "M", some "T"⟩]⟩, "b.go"),
         (⟨some "p", none, some [⟨some "T", some "struct"⟩], none⟩, "a.go")]) :=
  ⟨fun h => addFunction_attach p n r pd td h,
   fun h => addFunction_drop p n r pd h,
   by decide⟩

/-- C2 witness: attachment and drop at concrete inputs. -/
theorem c2_method_attachment_order_dependent_witness :
    obsMethod (addFunction "p"
      (mergeFileData emptyProject
        ⟨some "p", none, some [⟨some "T", some "struct"⟩], none⟩ "a.go")
      ⟨some "M", some "T"⟩) "p" "T" "M" = some (canonMethod "T" "M") ∧
    addFunction "p" emptyProject ⟨some "M", some "T"⟩ = emptyProject :=
  ⟨(c2_method_attachment_order_dependent "p" "M" "T"
      (mergeFileData emptyProject
        ⟨some "p", none, some [⟨some "T", some "struct"⟩], none⟩ "a.go")
      ⟨"T", "struct", [], [], []⟩).1 (by decide),
   (c2_method_attachment_order_dependent "p" "M" "T" emptyProject
      ⟨"T", "struct", [], [], []⟩).2.1 (by decide)⟩

/-- C3: on every model reachable from the empty project, registering a
function fact whose name already exists leaves the existing entry
unchanged — the overwrite writes back the identical canonical record, so
the observable semantics is first-wins — both for free functions in the
package's functions map and for methods in a receiver type's methods
map. -/
theorem c3_registration_first_wins (l : List (FileFacts × String))
    (f : FileFacts) (path : String) (q n t m : String)
    (fd md : FunctionData) :
    (obsFun (mergeList emptyProject l) q n = some fd →
      obsFun (mergeFileData (mergeList emptyProject l) f path) q n =
        some fd) ∧
    (obsMethod (mergeList emptyProject l) q t m = some md →
      obsMethod (mergeFileData (mergeList emptyProject l) f path) q t m =
        some md) := by
  have hc : Canon (mergeList emptyProject l) :=
    mergeList_canon emptyProject l canon_emptyProject
  have hc' : Canon (mergeFileData (mergeList emptyProject l) f path) :=
    mergeFileData_canon _ f path hc
  constructor
  · intro h
    have hmono := mergeFileData_obsFun_mono (mergeList emptyProject l) f
      path q n (by rw [h]; rfl)
    rcases ha : obsFun (mergeFileData (mergeList emptyProject l) f path) q n
      with _ | fd'
    · rw [ha] at hmono; exact absurd hmono (by simp)
    · rw [canon_obsFun_value _ _ _ _ hc' ha,
        canon_obsFun_value _ _ _ _ hc h]
  · intro h
    have hmono := mergeFileData_obsMethod_mono (mergeList emptyProject l) f
      path q t m (by rw [h]; rfl)
    rcases ha : obsMethod (mergeFileData (mergeList emptyProject l) f path)
        q t m with _ | md'
    · rw [ha] at hmono; exact absurd hmono (by simp)
    · rw [canon_obsMethod_value _ _ _ _ _ hc' ha,
        canon_obsMethod_value _ _ _ _ _ hc h]

/-- C3 witness: a duplicate free-function fact and a duplicate method
fact leave the first-registered entries in place at concrete inputs. -/
theorem c3_registration_first_wins_witness :
    obsFun (mergeFileData (mergeList emptyProject
        [(⟨some "p", none, some [⟨some "T", some "struct"⟩],
           some [⟨some "F", none⟩, ⟨some "M", some "T"⟩]⟩, "a.go")])
      ⟨some "p", none, none, some [⟨some "F", none⟩, ⟨some "M", some "T"⟩]⟩
      "b.go") "p" "F" = some (canonFun "F") ∧
    obsMethod (mergeFileData (mergeList emptyProject
        [(⟨some "p", none, some [⟨some "T", some "struct"⟩],
           some [⟨some "F", none⟩, ⟨some "M", some "T"⟩]⟩, "a.go")])
      ⟨some "p", none, none, some [⟨some "F", none⟩, ⟨some "M", some "T"⟩]⟩
      "b.go") "p" "T" "M" = some (canonMethod "T" "M") :=
  ⟨(c3_registration_first_wins
      [(⟨some "p", none, some [⟨some "T", some "struct"⟩],
         some [⟨some "F", none⟩, ⟨some "M", some "T"⟩]⟩, "a.go")]
      ⟨some "p", none, none, some [⟨some "F", none⟩, ⟨some "M", some "T"⟩]⟩
      "b.go" "p" "F" "T" "M" (canonFun "F") (canonMethod "T" "M")).1
      (by decide),
   (c3_registration_first_wins
      [(⟨some "p", none, some [⟨some "T", some "struct"⟩],
         some [⟨some "F", none⟩, ⟨some "M", some "T"⟩]⟩, "a.go")]
      ⟨some "p", none, none, some [⟨some "F", none⟩, ⟨some "M", some "T"⟩]⟩
      "b.go" "p" "F" "T" "M" (canonFun "F") (canonMethod "T" "M")).2
      (by decide)⟩

/-- C4 counterexample: the claim says a merge with an *empty* declared
package name is a no-op on the project model; but a present-but-empty
package name `""` passes the Go type assertion, so the file is merged
under the empty-string key and the model changes. -/
theorem c4_empty_name_counterexample :
    mergeFileData emptyProject ⟨some "", some ["x"], none, none⟩ "f.go" ≠
      emptyProject := by
  decide

/-- C4 (amended): a merge whose facts carry no package name (the
`fileData["package"].(string)` assertion fails) is a complete no-op on
the project model; a present-but-empty name `""` is merged as an
ordinary package; no diagnostic exists anywhere in the implementation. -/
theorem c4_absent_package_noop (pd : ProjectData) (f : FileFacts)
    (path : String) :
    (f.package = none → mergeFileData pd f path = pd) ∧
    (f.package = some "" →
      (mapGet (mergeFileData pd f path).Packages "").isSome) :=
  ⟨mergeFileData_absent pd f path,
   fun h => mergeFileData_target_present pd f path "" h⟩

/-- C4 witness: both branches at concrete inputs. -/
theorem c4_absent_package_noop_witness :
    mergeFileData emptyProject ⟨none, some ["x"], none, none⟩ "g.go" =
      emptyProject ∧
    (mapGet (mergeFileData emptyProject ⟨some "", some ["x"], none, none⟩
      "f.go").Packages "").isSome :=
  ⟨(c4_absent_package_noop emptyProject ⟨none, some ["x"], none, none⟩
      "g.go").1 rfl,
   (c4_absent_package_noop emptyProject ⟨some "", some ["x"], none, none⟩
      "f.go").2 rfl⟩

/-- C9: `mergeFileData` never changes the relations map, and a merge of
facts declaring package `p` leaves the packages and imports entries of
every other package name unchanged. -/
theorem c9_merge_frame (pd : ProjectData) (f : FileFacts) (path : String) :
    (mergeFileData pd f path).Relations = pd.Relations ∧
    ∀ p q : String, f.package = some p → q ≠ p →
      mapGet (mergeFileData pd f path).Packages q = mapGet pd.Packages q ∧
      mapGet (mergeFileData pd f path).Imports q = mapGet pd.Imports q :=
  ⟨mergeFileData_relations pd f path,
   fun p q hp hq => ⟨mergeFileData_packages_ne pd f path p q hp hq,
     mergeFileData_imports_ne pd f path p q hp hq⟩⟩

/-- C9 witness: the frame property at a concrete state and file. -/
theorem c9_merge_frame_witness :
    mapGet (mergeFileData
      (mergeFileData emptyProject ⟨some "b", some ["y"], none, none⟩ "b.go")
      ⟨some "a", some ["x"], some [⟨some "T", none⟩], some [⟨some "F", none⟩]⟩
      "a.go").Packages "b" =
      mapGet (mergeFileData emptyProject ⟨some "b", some ["y"], none, none⟩
        "b.go").Packages "b" ∧
    mapGet (mergeFileData
      (mergeFileData emptyProject ⟨some "b", some ["y"], none, none⟩ "b.go")
      ⟨some "a", some ["x"], some [⟨some "T", none⟩], some [⟨some "F", none⟩]⟩
      "a.go").Imports "b" =
      mapGet (mergeFileData emptyProject ⟨some "b", some ["y"], none, none⟩
        "b.go").Imports "b" :=
  (c9_merge_frame
    (mergeFileData emptyProject ⟨some "b", some ["y"], none, none⟩ "b.go")
    ⟨some "a", some ["x"], some [⟨some "T", none⟩], some [⟨some "F", none⟩]⟩
    "a.go").2 "a" "b" rfl (by decide)

/-- C10: starting from the empty project, after any sequence of merges
every package entry's name equals its key, every type entry's name
equals its key, and every free-function entry's name equals its key. -/
theorem c10_name_key_coherence (l : List (FileFacts × String))
    (p t fn : String) (pkg : PackageData)
    (hpkg : mapGet (mergeList emptyProject l).Packages p = some pkg) :
    pkg.Name = p ∧
    (∀ td, mapGet pkg.Types t = some td → td.Name = t) ∧
    (∀ fd, mapGet pkg.Functions fn = some fd → fd.Name = fn) := by
  have hc : Canon (mergeList emptyProject l) :=
    mergeList_canon emptyProject l canon_emptyProject
  obtain ⟨_, hpk⟩ := hc
  obtain ⟨hname, _, _, hfun, htyp⟩ := hpk p pkg hpkg
  refine ⟨hname, fun td htd => (htyp t td htd).1, fun fd hfd => ?_⟩
  rw [hfun fn fd hfd]
  rfl

/-- C10 witness: coherence at a concrete merged model. -/
theorem c10_name_key_coherence_witness :
    ({ Name := "p",
       Types := [("T", ⟨"T", "struct", [], [], []⟩)],
       Functions := [("F", ⟨"F", "", [], []⟩)] } : PackageData).Name =
      "p" :=
  (c10_name_key_coherence
    [(⟨some "p", none, some [⟨some "T", some "struct"⟩],
       some [⟨some "F", none⟩]⟩, "a.go")] "p" "T" "F"
    { Name := "p",
      Types := [("T", ⟨"T", "struct", [], [], []⟩)],
      Functions := [("F", ⟨"F", "", [], []⟩)] } (by decide)).1

/-- C1 counterexample: in a traversal in which exactly one of three Go
files fails syntax extraction, `ParseGoProject` does not continue and
does not return a model of the successfully processed files: it aborts
with the wrapped error, and the file after the failing one is never
merged. -/
theorem c1_single_failure_counterexample :
    ParseGoProject
      [⟨none, "a.go", false, .ok ⟨some "p", some ["fmt"], none, none⟩⟩,
       ⟨none, "b.go", false, .error "malformed syntax"⟩,
       ⟨none, "c.go", false, .ok ⟨some "q", none, none, none⟩⟩] =
      .error (.walkDir (.parseFile "b.go" "malformed syntax")) := by
  decide

/-- C1 (amended): a single file's extraction failure aborts the whole
traversal: the walk callback returns the error wrapped with the file
path, `filepath.Walk` stops (entries after the failing one are never
processed), and `ParseGoProject` returns the wrapped walk error instead
of a model; no diagnostics list exists. -/
theorem c1_extraction_failure_aborts (pre post : List WalkEntry)
    (e : WalkEntry) (pd : ProjectData) (cause : String)
    (hw : walkAll emptyProject pre = .ok pd)
    (hacc : e.accessErr = none) (hdir : e.isDir = false)
    (hext : strEndsWith e.path ".go" = true)
    (hparse : e.parse = .error cause) :
    ParseGoProject (pre ++ e :: post) =
      .error (.walkDir (.parseFile e.path cause)) := by
  have hstep : walkStep pd e = .error (.parseFile e.path cause) := by
    unfold walkStep
    simp [hacc, hdir, hext, hparse]
  have hwalk : walkAll pd (e :: post) =
      .error (.parseFile e.path cause) := by
    rw [walkAll, hstep]
  unfold ParseGoProject
  rw [walkAll_append, hw]
  simp only [hwalk]

/-- C1 witness: the abort theorem applied to a concrete traversal with
one well-formed file before and one after the failing file. -/
theorem c1_extraction_failure_aborts_witness :
    ParseGoProject
      ([⟨none, "a.go", false, .ok ⟨some "p", some ["fmt"], none, none⟩⟩] ++
        ⟨none, "b.go", false, .error "boom"⟩ ::
          [⟨none, "c.go", false, .ok ⟨some "q", none, none, none⟩⟩]) =
      .error (.walkDir (.parseFile "b.go" "boom")) :=
  c1_extraction_failure_aborts
    [⟨none, "a.go", false, .ok ⟨some "p", some ["fmt"], none, none⟩⟩]
    [⟨none, "c.go", false, .ok ⟨some "q", none, none, none⟩⟩]
    ⟨none, "b.go", false, .error "boom"⟩
    (mergeFileData emptyProject ⟨some "p", some ["fmt"], none, none⟩ "a.go")
    "boom" (by decide) rfl rfl (by decide) rfl

/-- C5: merging two `FileFacts` for the same package that both declare a
type of the same name yields exactly one `TypeModel` under that name,
whose kind is the first declaration's kind and whose fields are empty;
the second declaration's kind and fields are not observable. -/
theorem c5_type_registration_idempotent (p t : String)
    (k1 k2 : Option String) (i1 i2 : Option (List String))
    (fns1 fns2 : Option (List FuncInfo)) (pa pb : String) :
    ∃ pkg td,
      mapGet (mergeList emptyProject
        [(⟨some p, i1, some [⟨some t, k1⟩], fns1⟩, pa),
         (⟨some p, i2, some [⟨some t, k2⟩], fns2⟩, pb)]).Packages p =
        some pkg ∧
      mapGet pkg.Types t = some td ∧ td.Kind = k1.getD "" ∧
      td.Fields = [] ∧ (mapKeys pkg.Types).count t = 1 := by
  obtain ⟨td1, h1, hn1, hk1, hf1, hi1⟩ := mergeFileData_type_registered
    emptyProject ⟨some p, i1, some [⟨some t, k1⟩], fns1⟩ pa p t k1 rfl rfl rfl
  obtain ⟨td2, h2, hn2, hk2, hf2, hi2⟩ := mergeFileData_obsType_fields
    (mergeFileData emptyProject ⟨some p, i1, some [⟨some t, k1⟩], fns1⟩ pa)
    ⟨some p, i2, some [⟨some t, k2⟩], fns2⟩ pb p t td1 h1
  have h2' : obsType (mergeList emptyProject
      [(⟨some p, i1, some [⟨some t, k1⟩], fns1⟩, pa),
       (⟨some p, i2, some [⟨some t, k2⟩], fns2⟩, pb)]) p t = some td2 := h2
  have hc : Canon (mergeList emptyProject
      [(⟨some p, i1, some [⟨some t, k1⟩], fns1⟩, pa),
       (⟨some p, i2, some [⟨some t, k2⟩], fns2⟩, pb)]) :=
    mergeList_canon emptyProject _ canon_emptyProject
  rcases hg : mapGet (mergeList emptyProject
      [(⟨some p, i1, some [⟨some t, k1⟩], fns1⟩, pa),
       (⟨some p, i2, some [⟨some t, k2⟩], fns2⟩, pb)]).Packages p
    with _ | pkg
  · rw [obsType, hg] at h2'
    exact Option.noConfusion h2'
  · rw [obsType, hg, Option.some_bind] at h2'
    obtain ⟨_, hndT, _, _, _⟩ := hc.2 p pkg hg
    have hmem := (mem_mapKeys_iff pkg.Types t).mpr (by rw [h2']; rfl)
    exact ⟨pkg, td2, rfl, h2', by rw [hk2, hk1], by rw [hf2, hf1],
      List.count_eq_one_of_mem hndT hmem⟩

/-- C6: merging files that all declare package `p` appends their import
lists to `imports[p]` in file order without deduplication; in
particular N files each importing `"x"` exactly once yield exactly N
occurrences of `"x"`. -/
theorem c6_import_accumulation (l : List (FileFacts × String))
    (p x : String) (hp : ∀ fp ∈ l, (fp.1 : FileFacts).package = some p) :
    (mapGet (mergeList emptyProject l).Imports p).getD [] =
      joinAll (l.map fun fp => ((fp.1 : FileFacts).imports).getD []) ∧
    ((∀ fp ∈ l, (((fp.1 : FileFacts).imports).getD []).count x = 1) →
      ((mapGet (mergeList emptyProject l).Imports p).getD []).count x =
        l.length) := by
  have hbase := mergeList_imports_getD l emptyProject p hp
  constructor
  · rw [hbase]
    rfl
  · intro hx
    rw [hbase]
    show (([] : List String) ++ _).count x = _
    rw [List.nil_append, joinAll_count, List.map_map]
    exact sum_map_ones l _ hx

/-- C6 witness: two files each importing `"x"` once yield two
occurrences. -/
theorem c6_import_accumulation_witness :
    ((mapGet (mergeList emptyProject
      [(⟨some "p", some ["x"], none, none⟩, "a.go"),
       (⟨some "p", some ["x", "fmt"], none, none⟩, "b.go")]).Imports
      "p").getD []).count "x" = 2 :=
  (c6_import_accumulation
    [(⟨some "p", some ["x"], none, none⟩, "a.go"),
     (⟨some "p", some ["x", "fmt"], none, none⟩, "b.go")] "p" "x"
    (by decide)).2 (by decide)

/-- C7: a type and a free function of the same name in the same package
are independently retrievable after a merge declaring both, and a
function fact that carries a receiver never changes any functions map
(methods only ever live under the receiver type). -/
theorem c7_namespace_separation (p n : String) (k : Option String)
    (io : Option (List String)) (path : String) (pd : ProjectData)
    (fi : FuncInfo) (r pq q0 f0 : String) :
    ((obsType (mergeFileData emptyProject
        ⟨some p, io, some [⟨some n, k⟩], some [⟨some n, none⟩]⟩ path)
        p n).isSome ∧
     (obsFun (mergeFileData emptyProject
        ⟨some p, io, some [⟨some n, k⟩], some [⟨some n, none⟩]⟩ path)
        p n).isSome) ∧
    (fi.receiver = some r →
      obsFun (addFunction pq pd fi) q0 f0 = obsFun pd q0 f0) := by
  constructor
  · constructor
    · obtain ⟨td, h, _, _, _, _⟩ := mergeFileData_type_registered
        emptyProject ⟨some p, io, some [⟨some n, k⟩], some [⟨some n, none⟩]⟩
        path p n k rfl rfl rfl
      rw [h]
      rfl
    · have hiso : (mapGet (addType p
          (addImports (ensurePackage emptyProject p) p io)
          ⟨some n, k⟩).Packages p).isSome := by
        rw [← mem_mapKeys_iff, addType_packages_keys, addImports_packages,
          mem_mapKeys_iff]
        exact ensurePackage_present emptyProject p
      rcases hg3 : mapGet (addType p
          (addImports (ensurePackage emptyProject p) p io)
          ⟨some n, k⟩).Packages p with _ | pkg3
      · rw [hg3] at hiso
        exact absurd hiso (by simp)
      · have hfree := addFunction_free_registers p n
          (addType p (addImports (ensurePackage emptyProject p) p io)
            ⟨some n, k⟩) pkg3 hg3
        have : (obsFun (addFunction p
            (addType p (addImports (ensurePackage emptyProject p) p io)
              ⟨some n, k⟩) ⟨some n, none⟩) p n).isSome := by
          rw [hfree]
          rfl
        exact this
  · intro hr
    exact addFunction_receiver_obsFun pq pd fi r hr q0 f0

/-- C7 witness: the receiver-carrying fact part at concrete inputs. -/
theorem c7_namespace_separation_witness :
    obsFun (addFunction "p"
      (mergeFileData emptyProject
        ⟨some "p", none, some [⟨some "T", some "struct"⟩], none⟩ "a.go")
      ⟨some "M", some "T"⟩) "p" "M" =
    obsFun (mergeFileData emptyProject
      ⟨some "p", none, some [⟨some "T", some "struct"⟩], none⟩ "a.go")
      "p" "M" :=
  (c7_namespace_separation "p" "N" none none "x.go"
    (mergeFileData emptyProject
      ⟨some "p", none, some [⟨some "T", some "struct"⟩], none⟩ "a.go")
    ⟨some "M", some "T"⟩ "T" "p" "p" "M").2 rfl

/-- C8: the packages map holds exactly one entry per declared package
name (whatever number of files declare it), and a merge into a state
where the name is already present keeps the existing package identity
(its `Name`) in place. -/
theorem c8_package_create_if_absent (l : List (FileFacts × String))
    (p : String) (pd : ProjectData) (f : FileFacts) (path : String)
    (pkg : PackageData) :
    ((∃ fp ∈ l, (fp.1 : FileFacts).package = some p) →
      (mapKeys (mergeList emptyProject l).Packages).count p = 1) ∧
    (mapGet pd.Packages p = some pkg →
      ∃ pkg', mapGet (mergeFileData pd f path).Packages p = some pkg' ∧
        pkg'.Name = pkg.Name) := by
  constructor
  · intro hex
    have hiso : (mapGet (mergeList emptyProject l).Packages p).isSome :=
      (mergeList_packages_isSome l emptyProject p).mpr (Or.inr hex)
    have hmem := (mem_mapKeys_iff (mergeList emptyProject l).Packages p).mpr
      hiso
    have hnd : (mapKeys (mergeList emptyProject l).Packages).Nodup :=
      (mergeList_canon emptyProject l canon_emptyProject).1
    exact List.count_eq_one_of_mem hnd hmem
  · intro h
    exact mergeFileData_pkgName_preserved pd f path p pkg h

/-- C8 witness: three files, two declaring `"p"`, give one `"p"` entry;
and a remerge preserves the first package's name. -/
theorem c8_package_create_if_absent_witness :
    (mapKeys (mergeList emptyProject
      [(⟨some "p", some ["x"], none, none⟩, "a.go"),
       (⟨some "q", none, none, none⟩, "b.go"),
       (⟨some "p", none, some [⟨some "T", none⟩], none⟩, "c.go")]).Packages).count
      "p" = 1 ∧
    ∃ pkg', mapGet (mergeFileData
        (mergeFileData emptyProject ⟨some "p", none, none, none⟩ "a.go")
        ⟨some "p", none, none, some [⟨some "F", none⟩]⟩ "b.go").Packages
        "p" = some pkg' ∧
      pkg'.Name = ({ Name := "p", Types := [], Functions := [] } :
        PackageData).Name :=
  ⟨(c8_package_create_if_absent
      [(⟨some "p", some ["x"], none, none⟩, "a.go"),
       (⟨some "q", none, none, none⟩, "b.go"),
       (⟨some "p", none, some [⟨some "T", none⟩], none⟩, "c.go")] "p"
      emptyProject ⟨none, none, none, none⟩ "z.go"
      { Name := "p", Types := [], Functions := [] }).1 (by decide),
   (c8_package_create_if_absent []
      "p" (mergeFileData emptyProject ⟨some "p", none, none, none⟩ "a.go")
      ⟨some "p", none, none, some [⟨some "F", none⟩]⟩ "b.go"
      { Name := "p", Types := [], Functions := [] }).2 (by decide)⟩

end Mermgen
